import Mathlib

/-!
Verification of the trace low-degree-extension and commitment subsystem
(`DefaultTraceLde` in `prover/src/trace/trace_lde/default/mod.rs`).

The manager, its lifecycle operations (`new`, `add_aux_segment`), the frame
readers, the query builder and the shared commitment-building algorithm are
embedded from the source.  The external collaborators (the polynomial
extension engine, the Merkle-tree row-commitment builder and its batch
prover) are not part of the shown source; they are modelled from the spec,
each marked `Modelled from the spec:` in its doc comment.  Fatal contract
violations (Rust `assert!` / panics) are embedded as `none` results: a
panicking call produces no successor state and no return value.

Base-field and extension-field elements are modelled by a single carrier
type `α` (the embedding of the generic algorithm at `E = E::BaseField`,
which the source permits); none of the verified properties depend on the
field structure of the elements.
-/

namespace Winterfell

/-- Fuel-indexed floor-log helper used to define `ilog2` by structural
recursion (so that the kernel can evaluate it on concrete inputs). -/
def log2Aux : Nat → Nat → Nat
  | 0, _ => 0
  | fuel + 1, n => if 2 ≤ n then log2Aux fuel (n / 2) + 1 else 0

/-- Floor base-2 logarithm, the embedding of Rust's `usize::ilog2`
(defined for positive arguments; the source panics on `0`, which the
embedding of `build_trace_commitment` guards explicitly). -/
def ilog2 (n : Nat) : Nat := log2Aux n n

theorem log2Aux_two_pow : ∀ k fuel, 2 ^ k ≤ fuel → log2Aux fuel (2 ^ k) = k := by
  intro k
  induction k with
  | zero =>
    intro fuel h
    cases fuel with
    | zero => omega
    | succ f => simp [log2Aux]
  | succ k ih =>
    intro fuel h
    have hpow : 1 ≤ 2 ^ k := Nat.one_le_two_pow
    have hsucc : 2 ^ (k + 1) = 2 ^ k * 2 := by rw [Nat.pow_succ]
    cases fuel with
    | zero => omega
    | succ f =>
      have h2 : 2 ≤ 2 ^ (k + 1) := by omega
      have hdiv : 2 ^ (k + 1) / 2 = 2 ^ k := by
        rw [hsucc]; exact Nat.mul_div_cancel _ (by norm_num)
      have hfle : 2 ^ k ≤ f := by omega
      simp only [log2Aux, if_pos h2, hdiv, ih f hfle]

theorem ilog2_two_pow (k : Nat) : ilog2 (2 ^ k) = k :=
  log2Aux_two_pow k (2 ^ k) le_rfl

theorem ilog2_pow_self_iff (n : Nat) : 2 ^ ilog2 n = n ↔ ∃ k, n = 2 ^ k := by
  constructor
  · intro h; exact ⟨ilog2 n, h.symm⟩
  · rintro ⟨k, rfl⟩; rw [ilog2_two_pow]

-- DATA MODEL
-- ===========================================================================

/-- Trace layout: only the field this core reads (`num_aux_segments`) is
embedded. -/
structure TraceLayout where
  num_aux_segments : Nat
  deriving DecidableEq

/-- Trace metadata owned by the manager; only the layout is read by the
embedded operations. -/
structure TraceInfo where
  layout : TraceLayout
  deriving DecidableEq

/-- Domain descriptor, embedded through the two accessors the source calls:
`trace_to_lde_blowup` and `lde_domain_size`. -/
structure StarkDomain where
  trace_to_lde_blowup : Nat
  lde_domain_size : Nat
  deriving DecidableEq

/-- Column-major matrix (`ColMatrix`): a list of columns. -/
structure ColMatrix (α : Type) where
  columns : List (List α)
  deriving DecidableEq

/-- Number of columns of a column-major matrix. -/
def ColMatrix.num_cols {α : Type} (m : ColMatrix α) : Nat := m.columns.length

/-- Number of rows of a column-major matrix: the length of its first column
(the source indexes `columns[0]`; an empty table is ruled out by the caller
contract and reads as `0` here). -/
def ColMatrix.num_rows {α : Type} (m : ColMatrix α) : Nat := (m.columns.headD []).length

/-- Row-major matrix (`RowMatrix`): a row width and a list of rows. -/
structure RowMatrix (α : Type) where
  row_width : Nat
  rows : List (List α)
  deriving DecidableEq

/-- Number of columns of a row-major matrix (its stored row width). -/
def RowMatrix.num_cols {α : Type} (m : RowMatrix α) : Nat := m.row_width

/-- Number of rows of a row-major matrix. -/
def RowMatrix.num_rows {α : Type} (m : RowMatrix α) : Nat := m.rows.length

/-- Row at index `i` (caller guarantees `i` is in range; out-of-range reads
are defaulted, matching the in-range caller contract of the source). -/
def RowMatrix.row {α : Type} (m : RowMatrix α) (i : Nat) : List α := m.rows.getD i []

/-- Merkle tree over row-hash leaves.  Modelled from the spec: the Row
Commitment Builder is an external collaborator; a leaf digest is modelled
as the hashed row itself (the spec admits any deterministic scheme). -/
structure MerkleTree (α : Type) where
  leaves : List (List α)
  deriving DecidableEq

/-- Commitment digests are opaque values bound to the committed leaves;
modelled from the spec as the leaf sequence itself (deterministic and
collision-free, which any qualifying hash scheme approximates). -/
def Digest (α : Type) : Type := List (List α)

instance {α : Type} [DecidableEq α] : DecidableEq (Digest α) := by
  unfold Digest; infer_instance

/-- Modelled from the spec: `tree.root()` returns the digest binding the
prover to the committed leaves. -/
def MerkleTree.root {α : Type} (t : MerkleTree α) : Digest α := t.leaves

/-- Modelled from the spec: `tree.depth()`; the spec fixes
depth = log2(number of leaves). -/
def MerkleTree.depth {α : Type} (t : MerkleTree α) : Nat := ilog2 t.leaves.length

/-- Batched Merkle authentication proof for a set of positions.  Modelled
from the spec: the proof object is opaque; it is determined by the opened
positions and the authenticated leaf values. -/
structure BatchMerkleProof (α : Type) where
  indexes : List Nat
  openings : List (List α)
  deriving DecidableEq

/-- Modelled from the spec: `tree.prove_batch(positions) -> proof | error`;
it fails exactly when the underlying tree cannot produce proofs for the
given positions (an out-of-range index). -/
def MerkleTree.prove_batch {α : Type} (t : MerkleTree α) (positions : List Nat) :
    Option (BatchMerkleProof α) :=
  if positions.all (fun p => p < t.leaves.length) then
    some { indexes := positions, openings := positions.map (fun p => t.leaves.getD p []) }
  else none

/-- Modelled from the spec: the external Row Commitment Builder
(`RowMatrix::commit_to_rows`).  Every row is hashed into a leaf and a
Merkle tree is built over the leaves; the row count must be an exact power
of two, otherwise the construction is a fatal contract violation
(embedded as `none`). -/
def RowMatrix.commit_to_rows {α : Type} (m : RowMatrix α) : Option (MerkleTree α) :=
  if 2 ^ ilog2 m.num_rows = m.num_rows then some { leaves := m.rows } else none

/-- Modelled from the spec: the external Polynomial Extension Engine's
`interpolate(column_table) -> polynomial_table`.  The spec specifies only
its shape — one coefficient-form polynomial per column, polynomial-table
row count = original trace length — so it is modelled as the coefficient
table of identical dimensions. -/
def interpolate_columns {α : Type} (m : ColMatrix α) : ColMatrix α := m

/-- Modelled from the spec: the external Polynomial Extension Engine's
`evaluate_over_domain` (`RowMatrix::evaluate_polys_over`).  The spec fixes
its shape — a row-major table with `domain.lde_domain_size` rows and one
column per input polynomial; the evaluation values themselves are the
external engine's concern and are modelled by a deterministic sampling of
the coefficient columns. -/
def RowMatrix.evaluate_polys_over {α : Type} [Inhabited α] (polys : ColMatrix α)
    (domain : StarkDomain) : RowMatrix α :=
  { row_width := polys.num_cols,
    rows := (List.range domain.lde_domain_size).map
      (fun i => polys.columns.map (fun c => c.getD (i % Nat.max c.length 1) default)) }

theorem evaluate_polys_over_num_rows {α : Type} [Inhabited α] (polys : ColMatrix α)
    (domain : StarkDomain) :
    (RowMatrix.evaluate_polys_over polys domain).num_rows = domain.lde_domain_size := by
  simp [RowMatrix.evaluate_polys_over, RowMatrix.num_rows]

theorem evaluate_polys_over_num_cols {α : Type} [Inhabited α] (polys : ColMatrix α)
    (domain : StarkDomain) :
    (RowMatrix.evaluate_polys_over polys domain).num_cols = polys.num_cols := rfl

-- THE TRACE COMMITMENT MANAGER AND ITS OPERATIONS
-- ===========================================================================

/-- Evaluation frame: the current and next rows handed to transition
constraint evaluation.  The source writes the two rows into a caller-owned
buffer; the embedding returns the written frame. -/
structure EvaluationFrame (α : Type) where
  current : List α
  next : List α
  deriving DecidableEq

/-- Query bundle for one segment: a batched Merkle authentication proof
paired with the opened trace rows (`Queries::new(trace_proof, trace_states)`). -/
structure Queries (α : Type) where
  trace_proof : BatchMerkleProof α
  trace_states : List (List α)
  deriving DecidableEq

/-- State of `DefaultTraceLde`: the extended main segment and its tree, the ordered
auxiliary segments and their trees, the blowup factor and the trace info. -/
structure DefaultTraceLde (α : Type) where
  main_segment_lde : RowMatrix α
  main_segment_tree : MerkleTree α
  aux_segment_ldes : List (RowMatrix α)
  aux_segment_trees : List (MerkleTree α)
  blowup : Nat
  trace_info : TraceInfo
  deriving DecidableEq

/-- Embedding of `build_trace_commitment`: interpolates the columns, evaluates the
polynomials over the LDE domain, checks the three dimension assertions,
and commits to the rows, checking the tree-depth assertion.  Every failed
`assert!` of the source — and the `ilog2` panic on a zero row count, and
the fatal Merkle construction failure — is embedded as `none`. -/
def build_trace_commitment {α : Type} [Inhabited α] (trace : ColMatrix α)
    (domain : StarkDomain) : Option (RowMatrix α × MerkleTree α × ColMatrix α) :=
  let trace_polys := interpolate_columns trace
  let trace_lde := RowMatrix.evaluate_polys_over trace_polys domain
  if trace_lde.num_cols ≠ trace.num_cols then none
  else if trace_polys.num_rows ≠ trace.num_rows then none
  else if trace_lde.num_rows ≠ domain.lde_domain_size then none
  else if trace_lde.num_rows = 0 then none
  else
    match trace_lde.commit_to_rows with
    | none => none
    | some trace_tree =>
      if trace_tree.depth ≠ ilog2 trace_lde.num_rows then none
      else some (trace_lde, trace_tree, trace_polys)

/-- Embedding of `DefaultTraceLde::new`: extends and commits the main segment and builds
the manager with no auxiliary segments; returns the manager and the main
segment's polynomial table. -/
def DefaultTraceLde.new {α : Type} [Inhabited α] (trace_info : TraceInfo)
    (main_trace : ColMatrix α) (domain : StarkDomain) :
    Option (DefaultTraceLde α × ColMatrix α) :=
  match build_trace_commitment main_trace domain with
  | none => none
  | some (main_segment_lde, main_segment_tree, main_segment_polys) =>
    some
      ({ main_segment_lde := main_segment_lde,
         main_segment_tree := main_segment_tree,
         aux_segment_ldes := [],
         aux_segment_trees := [],
         blowup := domain.trace_to_lde_blowup,
         trace_info := trace_info },
       main_segment_polys)

/-- Embedding of `trace_len()`: the number of rows of the extended execution trace. -/
def DefaultTraceLde.trace_len {α : Type} (self : DefaultTraceLde α) : Nat :=
  self.main_segment_lde.num_rows

/-- Embedding of `trace_layout()`: the layout held by the trace metadata. -/
def DefaultTraceLde.trace_layout {α : Type} (self : DefaultTraceLde α) : TraceLayout :=
  self.trace_info.layout

/-- Embedding of `get_main_trace_commitment()`: the root digest of the main segment's
tree. -/
def DefaultTraceLde.get_main_trace_commitment {α : Type} (self : DefaultTraceLde α) :
    Digest α :=
  self.main_segment_tree.root

/-- Embedding of `add_aux_segment`: extends and commits the auxiliary segment, checks the
two fatal preconditions (segment-count limit, extended row-count equality
with the main segment), then appends the extended table and the tree and
returns the polynomial table together with the new tree's root.  A failed
check panics in the source before any state is mutated; the embedding
returns `none` — no successor state exists. -/
def DefaultTraceLde.add_aux_segment {α : Type} [Inhabited α] (self : DefaultTraceLde α)
    (aux_trace : ColMatrix α) (domain : StarkDomain) :
    Option (DefaultTraceLde α × ColMatrix α × Digest α) :=
  match build_trace_commitment aux_trace domain with
  | none => none
  | some (aux_segment_lde, aux_segment_tree, aux_segment_polys) =>
    if self.aux_segment_ldes.length < self.trace_info.layout.num_aux_segments then
      if self.main_segment_lde.num_rows = aux_segment_lde.num_rows then
        some
          ({ self with
             aux_segment_ldes := self.aux_segment_ldes ++ [aux_segment_lde],
             aux_segment_trees := self.aux_segment_trees ++ [aux_segment_tree] },
           aux_segment_polys, aux_segment_tree.root)
      else none
    else none

/-- Embedding of `read_main_trace_frame_into`: copies the row at `lde_step` into the
current slot and the row at `(lde_step + blowup) % trace_len` into the next
slot of the frame. -/
def DefaultTraceLde.read_main_trace_frame_into {α : Type} (self : DefaultTraceLde α)
    (lde_step : Nat) : EvaluationFrame α :=
  let next_lde_step := (lde_step + self.blowup) % self.trace_len
  { current := self.main_segment_lde.row lde_step,
    next := self.main_segment_lde.row next_lde_step }

/-- Embedding of `read_aux_trace_frame_into`: reads from auxiliary segment `0`; indexing
`aux_segment_ldes[0]` on an empty list panics in the source, embedded as
`none`. -/
def DefaultTraceLde.read_aux_trace_frame_into {α : Type} (self : DefaultTraceLde α)
    (lde_step : Nat) : Option (EvaluationFrame α) :=
  let next_lde_step := (lde_step + self.blowup) % self.trace_len
  match self.aux_segment_ldes with
  | [] => none
  | segment :: _ =>
    some
      { current := segment.row lde_step,
        next := segment.row next_lde_step }

/-- Embedding of `build_segment_queries`: the opened rows at the requested positions in
order, paired with one batched Merkle proof for the whole position list;
the `expect` on a failed batch proof panics, embedded as `none`. -/
def build_segment_queries {α : Type} (segment_lde : RowMatrix α)
    (segment_tree : MerkleTree α) (positions : List Nat) : Option (Queries α) :=
  let trace_states := positions.map (fun pos => segment_lde.row pos)
  match segment_tree.prove_batch positions with
  | none => none
  | some trace_proof => some { trace_proof := trace_proof, trace_states := trace_states }

/-- The auxiliary-segment loop of `query`: for each auxiliary tree (in
order, carrying the running index `i`), builds the segment's query bundle
against `aux_segment_ldes[i]`. -/
def build_aux_queries {α : Type} (self : DefaultTraceLde α) (positions : List Nat) :
    Nat → List (MerkleTree α) → Option (List (Queries α))
  | _, [] => some []
  | i, segment_tree :: rest =>
    match build_segment_queries (self.aux_segment_ldes.getD i ⟨0, []⟩) segment_tree
        positions with
    | none => none
    | some q =>
      match build_aux_queries self positions (i + 1) rest with
      | none => none
      | some qs => some (q :: qs)

/-- Embedding of `query`: the main segment's bundle followed by one bundle per auxiliary
segment in append order. -/
def DefaultTraceLde.query {α : Type} (self : DefaultTraceLde α) (positions : List Nat) :
    Option (List (Queries α)) :=
  match build_segment_queries self.main_segment_lde self.main_segment_tree positions with
  | none => none
  | some main_queries =>
    match build_aux_queries self positions 0 self.aux_segment_trees with
    | none => none
    | some aux_queries => some (main_queries :: aux_queries)

-- NORMALIZATION OF THE COMMITMENT-BUILDING ALGORITHM
-- ===========================================================================

theorem build_trace_commitment_eq {α : Type} [Inhabited α] (trace : ColMatrix α)
    (domain : StarkDomain) :
    build_trace_commitment trace domain =
      if 2 ^ ilog2 domain.lde_domain_size = domain.lde_domain_size ∧
          0 < domain.lde_domain_size then
        some (RowMatrix.evaluate_polys_over trace domain,
              { leaves := (RowMatrix.evaluate_polys_over trace domain).rows }, trace)
      else none := by
  have hrows : (RowMatrix.evaluate_polys_over trace domain).num_rows
      = domain.lde_domain_size := evaluate_polys_over_num_rows trace domain
  by_cases hp : 2 ^ ilog2 domain.lde_domain_size = domain.lde_domain_size ∧
      0 < domain.lde_domain_size
  · rw [if_pos hp]
    have hz : domain.lde_domain_size ≠ 0 := Nat.pos_iff_ne_zero.mp hp.2
    have hcommit : (RowMatrix.evaluate_polys_over trace domain).commit_to_rows
        = some { leaves := (RowMatrix.evaluate_polys_over trace domain).rows } := by
      unfold RowMatrix.commit_to_rows
      rw [hrows, if_pos hp.1]
    simp [build_trace_commitment, interpolate_columns, hrows, hcommit, hz,
      MerkleTree.depth, RowMatrix.num_rows]
    refine ⟨evaluate_polys_over_num_cols trace domain, hrows, ?_⟩
    intro he
    apply hz
    rw [← hrows]
    simp [RowMatrix.num_rows, he]
  · rw [if_neg hp]
    by_cases hz : domain.lde_domain_size = 0
    · simp [build_trace_commitment, interpolate_columns, hrows, hz]
    · have hpow : ¬ 2 ^ ilog2 domain.lde_domain_size = domain.lde_domain_size := by
        intro hc
        exact hp ⟨hc, Nat.pos_of_ne_zero hz⟩
      have hcommit : (RowMatrix.evaluate_polys_over trace domain).commit_to_rows
          = none := by
        unfold RowMatrix.commit_to_rows
        rw [hrows, if_neg hpow]
      simp [build_trace_commitment, interpolate_columns, hrows, hz, hcommit]

/-- Dimensions, tree shape and power-of-two facts holding at every
successful run of `build_trace_commitment`. -/
theorem build_trace_commitment_some_spec {α : Type} [Inhabited α] {trace : ColMatrix α}
    {domain : StarkDomain} {lde : RowMatrix α} {tree : MerkleTree α} {polys : ColMatrix α}
    (h : build_trace_commitment trace domain = some (lde, tree, polys)) :
    lde.num_rows = domain.lde_domain_size ∧
    lde.num_cols = trace.num_cols ∧
    polys.num_rows = trace.num_rows ∧
    tree.leaves = lde.rows ∧
    tree.depth = ilog2 lde.num_rows ∧
    2 ^ ilog2 lde.num_rows = lde.num_rows := by
  rw [build_trace_commitment_eq] at h
  split at h
  next hc =>
    have hinj := Option.some.inj h
    have h1 : RowMatrix.evaluate_polys_over trace domain = lde := congrArg Prod.fst hinj
    have h2 : ({ leaves := (RowMatrix.evaluate_polys_over trace domain).rows }
        : MerkleTree α) = tree := congrArg (fun q => q.2.1) hinj
    have h3 : trace = polys := congrArg (fun q => q.2.2) hinj
    subst h1
    subst h2
    subst h3
    refine ⟨evaluate_polys_over_num_rows trace domain,
      evaluate_polys_over_num_cols trace domain, rfl, rfl, rfl, ?_⟩
    rw [evaluate_polys_over_num_rows trace domain]
    exact hc.1
  next => exact absurd h (by simp)

/-- The algorithm `build_trace_commitment` aborts whenever the domain's declared LDE size
is not an exact power of two. -/
theorem build_trace_commitment_none_of_not_pow {α : Type} [Inhabited α]
    (trace : ColMatrix α) (domain : StarkDomain)
    (h : ¬ ∃ k, domain.lde_domain_size = 2 ^ k) :
    build_trace_commitment trace domain = none := by
  rw [build_trace_commitment_eq]
  rw [if_neg]
  intro hc
  exact h ((ilog2_pow_self_iff domain.lde_domain_size).1 hc.1)

-- CONCRETE SAMPLE STATES (used by witnesses and counterexamples)
-- ===========================================================================

/-- Sample trace info: a layout declaring one auxiliary segment. -/
def sampleInfo : TraceInfo := { layout := { num_aux_segments := 1 } }

/-- Sample main column table: one column, four rows. -/
def sampleTrace : ColMatrix Nat := { columns := [[1, 2, 3, 4]] }

/-- Sample domain: blowup 2, LDE size 8. -/
def sampleDomain : StarkDomain := { trace_to_lde_blowup := 2, lde_domain_size := 8 }

/-- The extended main segment produced for `sampleTrace` over `sampleDomain`. -/
def sampleMainLde : RowMatrix Nat :=
  { row_width := 1, rows := [[1], [2], [3], [4], [1], [2], [3], [4]] }

/-- The commitment tree over `sampleMainLde`. -/
def sampleMainTree : MerkleTree Nat := { leaves := sampleMainLde.rows }

/-- The manager state produced by `new` on the sample inputs. -/
def sampleSelf : DefaultTraceLde Nat :=
  { main_segment_lde := sampleMainLde,
    main_segment_tree := sampleMainTree,
    aux_segment_ldes := [],
    aux_segment_trees := [],
    blowup := 2,
    trace_info := sampleInfo }

/-- Sample auxiliary column table: one column, four rows. -/
def sampleAuxTrace : ColMatrix Nat := { columns := [[5, 6, 7, 8]] }

/-- The extended auxiliary segment produced for `sampleAuxTrace`. -/
def sampleAuxLde : RowMatrix Nat :=
  { row_width := 1, rows := [[5], [6], [7], [8], [5], [6], [7], [8]] }

/-- The commitment tree over `sampleAuxLde`. -/
def sampleAuxTree : MerkleTree Nat := { leaves := sampleAuxLde.rows }

/-- The manager state after adding the sample auxiliary segment. -/
def sampleSelf2 : DefaultTraceLde Nat :=
  { sampleSelf with
    aux_segment_ldes := [sampleAuxLde],
    aux_segment_trees := [sampleAuxTree] }

/-- The number 6 is not a power of two (used to exhibit a rejected domain). -/
theorem not_two_pow_six : ¬ ∃ k, (6 : Nat) = 2 ^ k := by
  rintro ⟨k, hk⟩
  rcases k with _ | _ | _ | n
  · norm_num at hk
  · norm_num at hk
  · norm_num at hk
  · have h1 : 1 ≤ 2 ^ n := Nat.one_le_two_pow
    rw [pow_succ, pow_succ, pow_succ] at hk
    omega

/-- The operation `add_aux_segment` returns no successor state when the layout's declared
auxiliary-segment count is already reached. -/
theorem add_aux_segment_none_of_full {α : Type} [Inhabited α] (self : DefaultTraceLde α)
    (aux_trace : ColMatrix α) (domain : StarkDomain)
    (h : self.trace_info.layout.num_aux_segments ≤ self.aux_segment_ldes.length) :
    self.add_aux_segment aux_trace domain = none := by
  unfold DefaultTraceLde.add_aux_segment
  cases hb : build_trace_commitment aux_trace domain with
  | none => rfl
  | some res =>
    obtain ⟨lde, tree, polys⟩ := res
    simp only [if_neg (Nat.not_lt.mpr h)]

/-- The operation `add_aux_segment` returns no successor state when the domain's declared
LDE size (the extended auxiliary segment's row count) differs from the main
segment's extended row count. -/
theorem add_aux_segment_none_of_size_mismatch {α : Type} [Inhabited α]
    (self : DefaultTraceLde α) (aux_trace : ColMatrix α) (domain : StarkDomain)
    (h : domain.lde_domain_size ≠ self.main_segment_lde.num_rows) :
    self.add_aux_segment aux_trace domain = none := by
  unfold DefaultTraceLde.add_aux_segment
  cases hb : build_trace_commitment aux_trace domain with
  | none => rfl
  | some res =>
    obtain ⟨lde, tree, polys⟩ := res
    obtain ⟨h1, -, -, -, -, -⟩ := build_trace_commitment_some_spec hb
    have hne : self.main_segment_lde.num_rows ≠ lde.num_rows := by
      rw [h1]
      exact fun he => h he.symm
    by_cases hc : self.aux_segment_ldes.length < self.trace_info.layout.num_aux_segments
    · simp only [if_pos hc, if_neg hne]
    · simp only [if_neg hc]

-- STATE PREDICATES AND QUERY HELPERS
-- ===========================================================================

/-- Coherence of the stored trees with the extended tables: every committed
tree has one leaf per extended row (this holds in every state the
constructors produce, since each tree is built over its segment's rows). -/
def TreeCoherent {α : Type} (self : DefaultTraceLde α) : Prop :=
  self.main_segment_tree.leaves.length = self.trace_len ∧
  self.aux_segment_ldes.length = self.aux_segment_trees.length ∧
  ∀ i, i < self.aux_segment_trees.length →
    (self.aux_segment_trees.getD i { leaves := [] }).leaves.length = self.trace_len

/-- The invariant claimed of every reachable manager state: as many stored
auxiliary extended tables as stored auxiliary trees, never more than the
layout's declared auxiliary-segment count, and every stored auxiliary
extended table has the main segment's extended row count. -/
def AuxSegmentsInvariant {α : Type} (self : DefaultTraceLde α) : Prop :=
  self.aux_segment_ldes.length = self.aux_segment_trees.length ∧
  self.aux_segment_ldes.length ≤ self.trace_info.layout.num_aux_segments ∧
  ∀ lde ∈ self.aux_segment_ldes, lde.num_rows = self.main_segment_lde.num_rows

/-- Manager states reachable through the public lifecycle: construction by
`new` followed by any number of successful `add_aux_segment` calls (the
read operations take the state immutably and produce no new state). -/
inductive Reachable {α : Type} [Inhabited α] : DefaultTraceLde α → Prop where
  | base : ∀ (trace_info : TraceInfo) (main_trace : ColMatrix α)
      (domain : StarkDomain) (s : DefaultTraceLde α) (polys : ColMatrix α),
      DefaultTraceLde.new trace_info main_trace domain = some (s, polys) →
      Reachable s
  | add_step : ∀ (s : DefaultTraceLde α) (aux_trace : ColMatrix α)
      (domain : StarkDomain) (s2 : DefaultTraceLde α) (polys : ColMatrix α)
      (d : Digest α),
      Reachable s → s.add_aux_segment aux_trace domain = some (s2, polys, d) →
      Reachable s2

/-- A fresh manager holds no auxiliary segments. -/
theorem new_aux_empty {α : Type} [Inhabited α] {trace_info : TraceInfo}
    {main_trace polys : ColMatrix α} {domain : StarkDomain} {s : DefaultTraceLde α}
    (h : DefaultTraceLde.new trace_info main_trace domain = some (s, polys)) :
    s.aux_segment_ldes = [] ∧ s.aux_segment_trees = [] := by
  unfold DefaultTraceLde.new at h
  cases hb : build_trace_commitment main_trace domain with
  | none =>
    rw [hb] at h
    exact absurd h (by simp)
  | some res =>
    obtain ⟨lde, tree, pol⟩ := res
    rw [hb] at h
    have hs : ({ main_segment_lde := lde,
                 main_segment_tree := tree,
                 aux_segment_ldes := [],
                 aux_segment_trees := [],
                 blowup := domain.trace_to_lde_blowup,
                 trace_info := trace_info } : DefaultTraceLde α) = s :=
      congrArg Prod.fst (Option.some.inj h)
    rw [← hs]
    exact ⟨rfl, rfl⟩

/-- Characterization of a successful `add_aux_segment` call: both checks
passed and the new state is the old state with exactly the new extended
table and tree appended. -/
theorem add_aux_segment_some_spec {α : Type} [Inhabited α]
    {self s2 : DefaultTraceLde α} {aux_trace polys : ColMatrix α}
    {domain : StarkDomain} {d : Digest α}
    (h : self.add_aux_segment aux_trace domain = some (s2, polys, d)) :
    ∃ lde tree,
      build_trace_commitment aux_trace domain = some (lde, tree, polys) ∧
      self.aux_segment_ldes.length < self.trace_info.layout.num_aux_segments ∧
      self.main_segment_lde.num_rows = lde.num_rows ∧
      s2 = { self with
             aux_segment_ldes := self.aux_segment_ldes ++ [lde],
             aux_segment_trees := self.aux_segment_trees ++ [tree] } := by
  unfold DefaultTraceLde.add_aux_segment at h
  cases hb : build_trace_commitment aux_trace domain with
  | none =>
    rw [hb] at h
    exact absurd h (by simp)
  | some res =>
    obtain ⟨lde, tree, pol⟩ := res
    rw [hb] at h
    simp only at h
    split at h
    next hcount =>
      split at h
      next hrows =>
        have hinj := Option.some.inj h
        have h1 : ({ self with
            aux_segment_ldes := self.aux_segment_ldes ++ [lde],
            aux_segment_trees := self.aux_segment_trees ++ [tree] }
              : DefaultTraceLde α) = s2 := congrArg Prod.fst hinj
        have h2 : pol = polys := congrArg (fun q => q.2.1) hinj
        refine ⟨lde, tree, ?_, hcount, hrows, h1.symm⟩
        rw [h2]
      next => exact absurd h (by simp)
    next => exact absurd h (by simp)

/-- The batch prover `prove_batch` succeeds on any list of in-range positions, producing the
batched proof over exactly those positions. -/
theorem prove_batch_some {α : Type} (t : MerkleTree α) (positions : List Nat)
    (h : ∀ p ∈ positions, p < t.leaves.length) :
    t.prove_batch positions
      = some { indexes := positions,
               openings := positions.map (fun p => t.leaves.getD p []) } := by
  unfold MerkleTree.prove_batch
  rw [if_pos]
  exact List.all_eq_true.mpr fun p hp => decide_eq_true (h p hp)

/-- The auxiliary loop of `query` on coherent trees: one bundle per tree in
order, each pairing the tree's batched proof with the rows of the matching
extended table at the requested positions. -/
theorem build_aux_queries_spec {α : Type} (self : DefaultTraceLde α)
    (positions : List Nat) (hpos : ∀ p ∈ positions, p < self.trace_len) :
    ∀ (trees : List (MerkleTree α)) (i : Nat),
      (∀ j, j < trees.length →
        (trees.getD j { leaves := [] }).leaves.length = self.trace_len) →
      ∃ qs, build_aux_queries self positions i trees = some qs ∧
        qs.length = trees.length ∧
        ∀ j, j < trees.length →
          ∃ q, qs.get? j = some q ∧
            some q.trace_proof
              = (trees.getD j { leaves := [] }).prove_batch positions ∧
            q.trace_states = positions.map
              (self.aux_segment_ldes.getD (i + j) { row_width := 0, rows := [] }).row := by
  intro trees
  induction trees with
  | nil =>
    intro i _
    exact ⟨[], rfl, rfl, fun j hj => absurd hj (by simp)⟩
  | cons tree rest ih =>
    intro i hco
    have htree : ∀ p ∈ positions, p < tree.leaves.length := by
      intro p hp
      have := hco 0 (by simp)
      simp only [List.getD_cons_zero] at this
      rw [this]
      exact hpos p hp
    have hbatch := prove_batch_some tree positions htree
    obtain ⟨qs, hqs, hlen, hget⟩ := ih (i + 1) (by
      intro j hj
      have := hco (j + 1) (by simpa using Nat.succ_lt_succ hj)
      simpa using this)
    refine ⟨({ trace_proof := { indexes := positions,
                                openings := positions.map (fun p => tree.leaves.getD p []) },
               trace_states := positions.map
                 (self.aux_segment_ldes.getD i { row_width := 0, rows := [] }).row }
        : Queries α) :: qs, ?_, by simp [hlen], ?_⟩
    · simp only [build_aux_queries, build_segment_queries, hbatch, hqs]
    · intro j hj
      cases j with
      | zero =>
        refine ⟨_, rfl, ?_, ?_⟩
        · simp [hbatch]
        · simp
      | succ j =>
        simp only [List.length_cons] at hj
        obtain ⟨q, hq1, hq2, hq3⟩ := hget j (Nat.lt_of_succ_lt_succ hj)
        refine ⟨q, hq1, ?_, ?_⟩
        · simpa using hq2
        · have hidx : i + 1 + j = i + (j + 1) := by omega
          rw [hq3, hidx]

-- CLAIM THEOREMS
-- ===========================================================================

/-- C1: for every column table accepted by the commitment-building algorithm
(shared by `new` and `add_aux_segment`) with a domain descriptor whose
declared LDE size is the input row count times the blowup factor, the
returned extended row table has row count = input rows × blowup (= the
declared LDE size) and the input's column count, and the returned
polynomial table has the input's row count. -/
theorem C1_build_trace_commitment_dimensions {α : Type} [Inhabited α]
    (trace : ColMatrix α) (domain : StarkDomain) (lde : RowMatrix α)
    (tree : MerkleTree α) (polys : ColMatrix α)
    (h : build_trace_commitment trace domain = some (lde, tree, polys))
    (hdom : domain.lde_domain_size = trace.num_rows * domain.trace_to_lde_blowup) :
    lde.num_rows = trace.num_rows * domain.trace_to_lde_blowup ∧
    lde.num_rows = domain.lde_domain_size ∧
    lde.num_cols = trace.num_cols ∧
    polys.num_rows = trace.num_rows := by
  obtain ⟨h1, h2, h3, -, -, -⟩ := build_trace_commitment_some_spec h
  exact ⟨h1.trans hdom, h1, h2, h3⟩

theorem C1_witness :
    (build_trace_commitment sampleTrace sampleDomain
        = some (sampleMainLde, sampleMainTree, sampleTrace) ∧
     sampleDomain.lde_domain_size
        = sampleTrace.num_rows * sampleDomain.trace_to_lde_blowup) ∧
    (sampleMainLde.num_rows = sampleTrace.num_rows * sampleDomain.trace_to_lde_blowup ∧
     sampleMainLde.num_rows = sampleDomain.lde_domain_size ∧
     sampleMainLde.num_cols = sampleTrace.num_cols ∧
     sampleTrace.num_rows = sampleTrace.num_rows) :=
  ⟨⟨by decide, by decide⟩,
   C1_build_trace_commitment_dimensions sampleTrace sampleDomain sampleMainLde
     sampleMainTree sampleTrace (by decide) (by decide)⟩

/-- C2: every segment commitment's Merkle tree has depth exactly
log2 of the extended row count, the extended row count is an exact power of
two, and a domain whose declared LDE size is not an exact power of two makes
the commitment-building algorithm abort instead of producing a tree. -/
theorem C2_tree_depth_log2 {α : Type} [Inhabited α] (trace : ColMatrix α)
    (domain : StarkDomain) :
    (∀ (lde : RowMatrix α) (tree : MerkleTree α) (polys : ColMatrix α),
      build_trace_commitment trace domain = some (lde, tree, polys) →
        tree.depth = ilog2 lde.num_rows ∧ ∃ k, lde.num_rows = 2 ^ k) ∧
    ((¬ ∃ k, domain.lde_domain_size = 2 ^ k) →
      build_trace_commitment trace domain = none) := by
  constructor
  · intro lde tree polys h
    obtain ⟨-, -, -, -, h5, h6⟩ := build_trace_commitment_some_spec h
    exact ⟨h5, (ilog2_pow_self_iff lde.num_rows).1 h6⟩
  · exact build_trace_commitment_none_of_not_pow trace domain

theorem C2_witness :
    (sampleMainTree.depth = ilog2 sampleMainLde.num_rows ∧
      ∃ k, sampleMainLde.num_rows = 2 ^ k) ∧
    build_trace_commitment sampleTrace
        { trace_to_lde_blowup := 2, lde_domain_size := 6 }
      = (none : Option (RowMatrix Nat × MerkleTree Nat × ColMatrix Nat)) :=
  ⟨(C2_tree_depth_log2 sampleTrace sampleDomain).1 sampleMainLde sampleMainTree
      sampleTrace (by decide),
   (C2_tree_depth_log2 sampleTrace { trace_to_lde_blowup := 2, lde_domain_size := 6 }).2
      not_two_pow_six⟩

/-- C4: `add_aux_segment` aborts (no successor state, the embedding of a
panic) whenever the number of previously added auxiliary segments is not
strictly less than the layout's declared auxiliary-segment count. -/
theorem C4_add_aux_segment_count_check {α : Type} [Inhabited α]
    (self : DefaultTraceLde α) (aux_trace : ColMatrix α) (domain : StarkDomain)
    (h : self.trace_info.layout.num_aux_segments ≤ self.aux_segment_ldes.length) :
    self.add_aux_segment aux_trace domain = none :=
  add_aux_segment_none_of_full self aux_trace domain h

theorem C4_witness :
    sampleSelf2.trace_info.layout.num_aux_segments
        ≤ sampleSelf2.aux_segment_ldes.length ∧
    sampleSelf2.add_aux_segment sampleAuxTrace sampleDomain = none :=
  ⟨by decide,
   C4_add_aux_segment_count_check sampleSelf2 sampleAuxTrace sampleDomain (by decide)⟩

/-- C5 counterexample: the claim as stated is false on the code.  The
auxiliary column table `sampleAuxTrace` has 4 rows, which differs from the
main segment's extended row count 8, yet `add_aux_segment` succeeds and
appends the segment: the source never compares the input column table's own
row count with the main segment's extended row count (it compares the
extended auxiliary table's row count). -/
theorem C5_counterexample :
    sampleAuxTrace.num_rows ≠ sampleSelf.main_segment_lde.num_rows ∧
    sampleSelf.add_aux_segment sampleAuxTrace sampleDomain
      = some (sampleSelf2, sampleAuxTrace, sampleAuxTree.root) := by
  exact ⟨by decide, by decide⟩

/-- C5 (amended): `add_aux_segment` called with a domain descriptor whose
declared LDE size — the row count of the extended table built from the
column table — differs from the main segment's extended row count aborts
(fatal) rather than appending the segment. -/
theorem C5_add_aux_segment_row_mismatch {α : Type} [Inhabited α]
    (self : DefaultTraceLde α) (aux_trace : ColMatrix α) (domain : StarkDomain)
    (h : domain.lde_domain_size ≠ self.main_segment_lde.num_rows) :
    self.add_aux_segment aux_trace domain = none :=
  add_aux_segment_none_of_size_mismatch self aux_trace domain h

theorem C5_witness :
    ({ trace_to_lde_blowup := 2, lde_domain_size := 16 }
        : StarkDomain).lde_domain_size ≠ sampleSelf.main_segment_lde.num_rows ∧
    sampleSelf.add_aux_segment sampleAuxTrace
        { trace_to_lde_blowup := 2, lde_domain_size := 16 } = none :=
  ⟨by decide,
   C5_add_aux_segment_row_mismatch sampleSelf sampleAuxTrace
     { trace_to_lde_blowup := 2, lde_domain_size := 16 } (by decide)⟩

/-- C9: `add_aux_segment` is atomic: if either fatal precondition check
fails (auxiliary-segment count already at the layout's declared limit, or
extended row-count mismatch with the main segment), no successor manager
state is produced — the embedding of the panic raised by the source's
checks, both of which precede the two state-appending pushes — so the
manager's state is the unchanged input state, even though the rejected
segment's commitment was already computed before the checks. -/
theorem C9_add_aux_segment_atomic {α : Type} [Inhabited α]
    (self : DefaultTraceLde α) (aux_trace : ColMatrix α) (domain : StarkDomain)
    (h : self.trace_info.layout.num_aux_segments ≤ self.aux_segment_ldes.length ∨
         domain.lde_domain_size ≠ self.main_segment_lde.num_rows) :
    self.add_aux_segment aux_trace domain = none := by
  cases h with
  | inl h => exact add_aux_segment_none_of_full self aux_trace domain h
  | inr h => exact add_aux_segment_none_of_size_mismatch self aux_trace domain h

/-- C3: for every in-range `lde_step`, `read_main_trace_frame_into` copies
the main extended table's row at `lde_step` into the current slot and the
row at `(lde_step + blowup) % trace_len` into the next slot; for an original
trace of length `L` and blowup `B`, `lde_step = (L-1)*B` yields next = row at
LDE position `0` (cyclic wraparound) and `lde_step = 0` yields next = row at
LDE position `B`. -/
theorem C3_read_main_trace_frame_wraparound {α : Type} (self : DefaultTraceLde α)
    (lde_step L B : Nat) (hB : self.blowup = B) (hlen : self.trace_len = L * B)
    (hL : 2 ≤ L) (hB1 : 1 ≤ B) (_hstep : lde_step < self.trace_len) :
    ((self.read_main_trace_frame_into lde_step).current
        = self.main_segment_lde.row lde_step ∧
     (self.read_main_trace_frame_into lde_step).next
        = self.main_segment_lde.row ((lde_step + B) % (L * B))) ∧
    (self.read_main_trace_frame_into ((L - 1) * B)).next
        = self.main_segment_lde.row 0 ∧
    (self.read_main_trace_frame_into 0).next = self.main_segment_lde.row B := by
  have key : ∀ s, self.read_main_trace_frame_into s =
      { current := self.main_segment_lde.row s,
        next := self.main_segment_lde.row ((s + B) % (L * B)) } := by
    intro s
    simp [DefaultTraceLde.read_main_trace_frame_into, hB, hlen]
  refine ⟨by rw [key lde_step]; exact ⟨rfl, rfl⟩, ?_, ?_⟩
  · rw [key ((L - 1) * B)]
    have h1 : (L - 1) * B + B = L * B := by
      have h2 : L - 1 + 1 = L := by omega
      calc (L - 1) * B + B = (L - 1 + 1) * B := by ring
      _ = L * B := by rw [h2]
    rw [h1, Nat.mod_self]
  · rw [key 0]
    have h2 : (0 + B) % (L * B) = B := by
      have h3 : 2 * B ≤ L * B := Nat.mul_le_mul_right B hL
      rw [Nat.zero_add]
      apply Nat.mod_eq_of_lt
      omega
    rw [h2]

theorem C3_witness :
    (sampleSelf.blowup = 2 ∧ sampleSelf.trace_len = 4 * 2 ∧ 2 ≤ 4 ∧ 1 ≤ 2 ∧
     5 < sampleSelf.trace_len) ∧
    (((sampleSelf.read_main_trace_frame_into 5).current
        = sampleSelf.main_segment_lde.row 5 ∧
      (sampleSelf.read_main_trace_frame_into 5).next
        = sampleSelf.main_segment_lde.row ((5 + 2) % (4 * 2))) ∧
     (sampleSelf.read_main_trace_frame_into ((4 - 1) * 2)).next
        = sampleSelf.main_segment_lde.row 0 ∧
     (sampleSelf.read_main_trace_frame_into 0).next
        = sampleSelf.main_segment_lde.row 2) :=
  ⟨⟨by decide, by decide, by decide, by decide, by decide⟩,
   C3_read_main_trace_frame_wraparound sampleSelf 5 4 2 (by decide) (by decide)
     (by decide) (by decide) (by decide)⟩

/-- C7: `get_main_trace_commitment` is a pure read returning the main
segment tree's root: repeated calls on the same state return the same
digest, and the digest is unchanged by an intervening `add_aux_segment`
call (which leaves the main segment's tree untouched). -/
theorem C7_get_main_trace_commitment_stable {α : Type} [Inhabited α]
    (self s2 : DefaultTraceLde α) (aux_trace polys : ColMatrix α)
    (domain : StarkDomain) (d : Digest α)
    (h : self.add_aux_segment aux_trace domain = some (s2, polys, d)) :
    self.get_main_trace_commitment = self.get_main_trace_commitment ∧
    self.get_main_trace_commitment = self.main_segment_tree.root ∧
    s2.get_main_trace_commitment = self.get_main_trace_commitment := by
  refine ⟨rfl, rfl, ?_⟩
  unfold DefaultTraceLde.add_aux_segment at h
  cases hb : build_trace_commitment aux_trace domain with
  | none =>
    rw [hb] at h
    exact absurd h (by simp)
  | some res =>
    obtain ⟨lde, tree, pol⟩ := res
    rw [hb] at h
    simp only at h
    split at h
    · split at h
      · have hs : ({ self with
            aux_segment_ldes := self.aux_segment_ldes ++ [lde],
            aux_segment_trees := self.aux_segment_trees ++ [tree] }
              : DefaultTraceLde α) = s2 :=
          congrArg Prod.fst (Option.some.inj h)
        rw [← hs]
        rfl
      · exact absurd h (by simp)
    · exact absurd h (by simp)

theorem C7_witness :
    sampleSelf.add_aux_segment sampleAuxTrace sampleDomain
        = some (sampleSelf2, sampleAuxTrace, sampleAuxTree.root) ∧
    (sampleSelf.get_main_trace_commitment = sampleSelf.get_main_trace_commitment ∧
     sampleSelf.get_main_trace_commitment = sampleSelf.main_segment_tree.root ∧
     sampleSelf2.get_main_trace_commitment = sampleSelf.get_main_trace_commitment) :=
  ⟨by decide,
   C7_get_main_trace_commitment_stable sampleSelf sampleSelf2 sampleAuxTrace
     sampleAuxTrace sampleDomain sampleAuxTree.root (by decide)⟩

/-- C8: `read_aux_trace_frame_into` requires at least one auxiliary segment
and reads from auxiliary segment `0`: on a manager with zero auxiliary
segments the read aborts (no frame is produced, the embedding of the
panic), and with at least one segment it reads current and next rows from
segment `0`. -/
theorem C8_read_aux_trace_frame_requires_aux {α : Type} (self : DefaultTraceLde α)
    (lde_step : Nat) :
    (self.aux_segment_ldes = [] →
      self.read_aux_trace_frame_into lde_step = none) ∧
    (∀ (s : RowMatrix α) (rest : List (RowMatrix α)),
      self.aux_segment_ldes = s :: rest →
      self.read_aux_trace_frame_into lde_step
        = some { current := s.row lde_step,
                 next := s.row ((lde_step + self.blowup) % self.trace_len) }) := by
  constructor
  · intro he
    simp [DefaultTraceLde.read_aux_trace_frame_into, he]
  · intro s rest he
    simp [DefaultTraceLde.read_aux_trace_frame_into, he]

theorem C8_witness :
    sampleSelf.read_aux_trace_frame_into 3 = none ∧
    sampleSelf2.read_aux_trace_frame_into 6
      = some { current := sampleAuxLde.row 6,
               next := sampleAuxLde.row ((6 + sampleSelf2.blowup)
                 % sampleSelf2.trace_len) } :=
  ⟨(C8_read_aux_trace_frame_requires_aux sampleSelf 3).1 rfl,
   (C8_read_aux_trace_frame_requires_aux sampleSelf2 6).2 sampleAuxLde [] rfl⟩

/-- C6: for every list of in-range positions (on a state whose trees are
coherent with its extended tables, as every constructed state is), `query`
returns exactly one bundle per committed segment, ordered main first and
then the auxiliary segments in append order; each bundle pairs the single
batched Merkle proof over all requested positions against that segment's
tree with that segment's full rows at those positions, in the order of the
positions list. -/
theorem C6_query_bundles {α : Type} (self : DefaultTraceLde α) (positions : List Nat)
    (hco : TreeCoherent self) (hpos : ∀ p ∈ positions, p < self.trace_len) :
    ∃ qs, self.query positions = some qs ∧
      qs.length = 1 + self.aux_segment_trees.length ∧
      (∃ q0, qs.get? 0 = some q0 ∧
        some q0.trace_proof = self.main_segment_tree.prove_batch positions ∧
        q0.trace_states = positions.map self.main_segment_lde.row) ∧
      (∀ j, j < self.aux_segment_trees.length →
        ∃ q, qs.get? (j + 1) = some q ∧
          some q.trace_proof
            = (self.aux_segment_trees.getD j { leaves := [] }).prove_batch positions ∧
          q.trace_states = positions.map
            (self.aux_segment_ldes.getD j { row_width := 0, rows := [] }).row) := by
  obtain ⟨hmain, hlen, htrees⟩ := hco
  have hmainpos : ∀ p ∈ positions, p < self.main_segment_tree.leaves.length := by
    intro p hp
    rw [hmain]
    exact hpos p hp
  have hbatch := prove_batch_some self.main_segment_tree positions hmainpos
  obtain ⟨qs, hqs, hqlen, hget⟩ := build_aux_queries_spec self positions hpos
    self.aux_segment_trees 0 htrees
  refine ⟨({ trace_proof := { indexes := positions,
                              openings := positions.map
                                (fun p => self.main_segment_tree.leaves.getD p []) },
             trace_states := positions.map self.main_segment_lde.row }
      : Queries α) :: qs, ?_, ?_, ?_, ?_⟩
  · simp only [DefaultTraceLde.query, build_segment_queries, hbatch, hqs]
  · simp [hqlen, Nat.add_comm]
  · refine ⟨_, rfl, ?_, rfl⟩
    rw [hbatch]
  · intro j hj
    obtain ⟨q, hq1, hq2, hq3⟩ := hget j hj
    exact ⟨q, hq1, hq2, by simpa using hq3⟩

theorem C6_witness :
    (TreeCoherent sampleSelf2 ∧
     ∀ p ∈ ([0, 5, 2] : List Nat), p < sampleSelf2.trace_len) ∧
    (∃ qs, sampleSelf2.query [0, 5, 2] = some qs ∧
      qs.length = 1 + sampleSelf2.aux_segment_trees.length ∧
      (∃ q0, qs.get? 0 = some q0 ∧
        some q0.trace_proof = sampleSelf2.main_segment_tree.prove_batch [0, 5, 2] ∧
        q0.trace_states = [0, 5, 2].map sampleSelf2.main_segment_lde.row) ∧
      (∀ j, j < sampleSelf2.aux_segment_trees.length →
        ∃ q, qs.get? (j + 1) = some q ∧
          some q.trace_proof
            = (sampleSelf2.aux_segment_trees.getD j { leaves := [] }).prove_batch
                [0, 5, 2] ∧
          q.trace_states = [0, 5, 2].map
            (sampleSelf2.aux_segment_ldes.getD j { row_width := 0, rows := [] }).row)) :=
  ⟨⟨⟨by decide, by decide, by decide⟩, by decide⟩,
   C6_query_bundles sampleSelf2 [0, 5, 2] ⟨by decide, by decide, by decide⟩ (by decide)⟩

/-- C10: invariant of every reachable manager state, established by `new`
and preserved by every successful `add_aux_segment` (the read operations do
not produce states): the number of stored auxiliary extended tables equals
the number of stored auxiliary trees, this count never exceeds the layout's
declared auxiliary-segment count, and every stored auxiliary extended table
has the same row count as the main segment's extended table. -/
theorem C10_reachable_invariant {α : Type} [Inhabited α] (s : DefaultTraceLde α)
    (h : Reachable s) : AuxSegmentsInvariant s := by
  induction h with
  | base ti mt dom s0 polys hnew =>
    obtain ⟨h1, h2⟩ := new_aux_empty hnew
    refine ⟨by simp [h1, h2], by rw [h1]; exact Nat.zero_le _, ?_⟩
    intro lde hl
    rw [h1] at hl
    exact absurd hl (List.not_mem_nil lde)
  | add_step s0 aux dom s2 polys d hr hadd ih =>
    obtain ⟨lde, tree, hb, hcount, hrows, hs2⟩ := add_aux_segment_some_spec hadd
    subst hs2
    refine ⟨?_, ?_, ?_⟩
    · simp [ih.1]
    · simp only [List.length_append, List.length_cons, List.length_nil]
      omega
    · intro l hl
      simp only [List.mem_append, List.mem_singleton] at hl
      cases hl with
      | inl hl => exact ih.2.2 l hl
      | inr hl =>
        rw [hl]
        exact hrows.symm

theorem C10_witness :
    Reachable sampleSelf ∧ AuxSegmentsInvariant sampleSelf :=
  have hr : Reachable sampleSelf :=
    Reachable.base sampleInfo sampleTrace sampleDomain sampleSelf sampleTrace (by decide)
  ⟨hr, C10_reachable_invariant sampleSelf hr⟩

theorem C9_witness :
    (sampleSelf2.trace_info.layout.num_aux_segments
        ≤ sampleSelf2.aux_segment_ldes.length ∨
     sampleDomain.lde_domain_size ≠ sampleSelf2.main_segment_lde.num_rows) ∧
    sampleSelf2.add_aux_segment sampleAuxTrace sampleDomain = none :=
  ⟨Or.inl (by decide),
   C9_add_aux_segment_atomic sampleSelf2 sampleAuxTrace sampleDomain
     (Or.inl (by decide))⟩

end Winterfell
